import Mathlib

/-!
Verification of the geodesic polygon offset engine of
`source/cpp/math/expandingPolygon.h` (class `Polygon` with members
`enlarge`, `calculateAngleBisector`, `calculateBearing`, `movePoint`,
over the value type `LatLong`).

Modelling conventions:
- `double` arithmetic is modelled over the exact reals `ℝ`; the source
  constant `PI = 3.14159265358979323846` (the decimal rounding of π used
  for `double`) is modelled as the exact `Real.pi`.
- `std::atan2 y x` is modelled as the argument of the complex number
  `x + y*I`, which agrees with the C library function on every input
  (including `atan2 0 0 = 0`), signed zeros aside (absent from `ℝ`).
- `std::fmod` is modelled by truncated-remainder division, exactly the C
  semantics: `fmod x y = x - y * trunc (x / y)`.
- `std::vector<LatLong>` is modelled as `List LatLong`; `reserve` only
  changes capacity, never contents, and is dropped. A move-assignment
  `a = std::move(b)` is modelled as `a := b; b := []` (the moved-from
  vector is left empty, the behaviour of the standard library
  implementations the file targets).
- The indexed loop of `enlarge` (`for i in [0, size)` with `push_back`)
  is modelled as a `List.map` over `List.range`, appended to the prior
  contents of the output vector, which the source never clears.
- The declaration `std::vecotr<LatLong> enlargedVertices` of line 24 is
  read as the evidently intended `std::vector<LatLong>`.
- In the source, `enlarge` passes the `LatLong` returned by
  `calculateAngleBisector` (line 44) as the `double bearing` parameter of
  `movePoint` (line 45), which is ill-typed C++ (no such conversion
  exists); the model of `enlarge` passes the scalar bearing that
  `calculateAngleBisector` computes internally (`bisectorBearing` below),
  the only type-correct reading. The discrepancy itself is recorded by
  the theorems about `calculateAngleBisector`.
-/

noncomputable section

namespace ExpandingPolygon

/-- Model of the C library function `std::fmod x y`: the truncated
remainder `x - y * trunc (x / y)`. -/
def fmod (x y : ℝ) : ℝ :=
  x - y * ((if 0 ≤ x / y then (⌊x / y⌋ : ℤ) else (⌈x / y⌉ : ℤ)) : ℝ)

/-- Model of the C library function `std::atan2 y x`: the argument of the
complex number with real part `x` and imaginary part `y`, valued in
`(-π, π]`, with `atan2 0 0 = 0`. -/
def atan2 (y x : ℝ) : ℝ := Complex.arg ⟨x, y⟩

/-- Model of the value type `LatLong` (degrees), lines 7-13 of the
source: a latitude/longitude pair. -/
structure LatLong where
  latitude : ℝ
  longitude : ℝ

instance : Inhabited LatLong := ⟨⟨0, 0⟩⟩

/-- Model of the state of a C++ `Polygon` object: its two
`std::vector<LatLong>` members. -/
structure Polygon where
  vertices : List LatLong
  enlargedVertices : List LatLong

/-- Source constant `EARTH_RADIUS` (line 17), meters. -/
def EARTH_RADIUS : ℝ := 6371000

/-- Source constant `PI` (line 18), modelled as exact π. -/
def PI : ℝ := Real.pi

/-- Source constant `DEG_TO_RAD` (line 19). -/
def DEG_TO_RAD : ℝ := PI / 180

/-- Source constant `RAD_TO_DEG` (line 20). -/
def RAD_TO_DEG : ℝ := 180 / PI

/-- Model of `Polygon::calculateBearing` (lines 82-96): initial
great-circle bearing from `p` to `q`, shifted into `[0, 2π)` by
`fmod (atan2 y x + 2*PI) (2*PI)`. -/
def Polygon.calculateBearing (p q : LatLong) : ℝ :=
  let dLon := (q.longitude - p.longitude) * DEG_TO_RAD
  let lat1 := p.latitude * DEG_TO_RAD
  let lat2 := q.latitude * DEG_TO_RAD
  let y := Real.sin dLon * Real.cos lat2
  let x := Real.cos lat1 * Real.sin lat2 - Real.sin lat1 * Real.cos lat2 * Real.cos dLon
  fmod (atan2 y x + 2 * PI) (2 * PI)

/-- Scalar bisector bearing computed inside `Polygon::calculateAngleBisector`
(lines 52-77): mean of the two adjacent bearings, rotated by `PI` when the
normalized turn exceeds `PI`, then reduced by `fmod` into `[0, 2π)`. -/
def Polygon.bisectorBearing (prev current next : LatLong) : ℝ :=
  let bearing1 := Polygon.calculateBearing current prev
  let bearing2 := Polygon.calculateBearing current next
  let naive := (bearing1 + bearing2) / 2
  let angleDifference0 := bearing2 - bearing1
  let angleDifference :=
    if angleDifference0 < 0 then angleDifference0 + 2 * PI else angleDifference0
  let adjusted := if angleDifference > PI then naive + PI else naive
  fmod adjusted (2 * PI)

/-- Model of `Polygon::calculateAngleBisector` (lines 51-80): the function
returns a `LatLong` whose components are the cosine and sine of the scalar
bisector bearing (line 79), not the scalar bearing itself. -/
def Polygon.calculateAngleBisector (prev current next : LatLong) : LatLong :=
  ⟨Real.cos (Polygon.bisectorBearing prev current next),
   Real.sin (Polygon.bisectorBearing prev current next)⟩

/-- Model of `Polygon::movePoint` (lines 98-109): spherical
destination-point formula from `point` along `bearing` (radians) for
`distance` meters on the sphere of radius `EARTH_RADIUS`. -/
def Polygon.movePoint (point : LatLong) (bearing distance : ℝ) : LatLong :=
  let d := distance / EARTH_RADIUS
  let lat1 := point.latitude * DEG_TO_RAD
  let lon1 := point.longitude * DEG_TO_RAD
  let lat2 := Real.arcsin (Real.sin lat1 * Real.cos d +
                Real.cos lat1 * Real.sin d * Real.cos bearing)
  let lon2 := lon1 + atan2 (Real.sin bearing * Real.sin d * Real.cos lat1)
                (Real.cos d - Real.sin lat1 * Real.sin lat2)
  ⟨lat2 * RAD_TO_DEG, lon2 * RAD_TO_DEG⟩

/-- Model of `Polygon::enlarge` (lines 26-48) as a transformer of the
object state. Line 27: fewer than 3 vertices is a silent no-op. Lines
30-33: at distance zero the input vector is move-assigned into
`enlargedVertices`, leaving `vertices` empty. Lines 34-47: the loop then
appends one projected vertex per remaining input vertex (after a
distance-zero move there are none) to `enlargedVertices`, which is never
cleared. The bearing handed to `movePoint` is the scalar computed by
`calculateAngleBisector` (see the file comment on the line-45 type
error). -/
def Polygon.enlarge (p : Polygon) (distance : ℝ) : Polygon :=
  if p.vertices.length < 3 then p
  else
    let p1 := if distance = 0 then Polygon.mk [] p.vertices else p
    let vs := p1.vertices
    let n := vs.length
    { vertices := vs
      enlargedVertices := p1.enlargedVertices ++
        (List.range n).map (fun i =>
          let prev := (i + n - 1) % n
          let next := (i + 1) % n
          Polygon.movePoint (vs.getD i default)
            (Polygon.bisectorBearing (vs.getD prev default) (vs.getD i default)
              (vs.getD next default)) distance) }

/-- Great-circle distance between two `LatLong`s (degrees) on the sphere
of radius `EARTH_RADIUS`, by the standard spherical law of cosines; the
measuring stick for the displacement claims. -/
def sphericalDistance (p q : LatLong) : ℝ :=
  let f1 := p.latitude * DEG_TO_RAD
  let f2 := q.latitude * DEG_TO_RAD
  let dl := (q.longitude - p.longitude) * DEG_TO_RAD
  EARTH_RADIUS * Real.arccos
    (Real.sin f1 * Real.sin f2 + Real.cos f1 * Real.cos f2 * Real.cos dl)

/-- Naive bisector of `Polygon::calculateAngleBisector` line 56: the
arithmetic mean of the two adjacent bearings. -/
def Polygon.naiveBisector (p c q : LatLong) : ℝ :=
  (Polygon.calculateBearing c p + Polygon.calculateBearing c q) / 2

/-- Signed turn of `Polygon::calculateAngleBisector` lines 68-71:
`bearing2 - bearing1`, normalized into `[0, 2π)` by adding `2π` if
negative. -/
def Polygon.turnDelta (p c q : LatLong) : ℝ :=
  let d := Polygon.calculateBearing c q - Polygon.calculateBearing c p
  if d < 0 then d + 2 * PI else d

theorem PI_eq : PI = Real.pi := rfl

theorem fmod_eq_fract (x y : ℝ) (hx : 0 ≤ x) (hy : 0 < y) :
    fmod x y = y * Int.fract (x / y) := by
  have hq : 0 ≤ x / y := div_nonneg hx hy.le
  have hf : Int.fract (x / y) = x / y - (⌊x / y⌋ : ℤ) := rfl
  rw [fmod, if_pos hq, hf]
  field_simp

theorem fmod_nonneg (x y : ℝ) (hx : 0 ≤ x) (hy : 0 < y) : 0 ≤ fmod x y := by
  rw [fmod_eq_fract x y hx hy]
  exact mul_nonneg hy.le (Int.fract_nonneg _)

theorem fmod_lt (x y : ℝ) (hx : 0 ≤ x) (hy : 0 < y) : fmod x y < y := by
  rw [fmod_eq_fract x y hx hy]
  calc y * Int.fract (x / y) < y * 1 := by
        exact mul_lt_mul_of_pos_left (Int.fract_lt_one _) hy
    _ = y := mul_one y

theorem fmod_eq_self (x y : ℝ) (hx : 0 ≤ x) (hxy : x < y) : fmod x y = x := by
  have hy : 0 < y := lt_of_le_of_lt hx hxy
  have hq : 0 ≤ x / y := div_nonneg hx hy.le
  have hz : ⌊x / y⌋ = 0 :=
    Int.floor_eq_zero_iff.mpr ⟨hq, (div_lt_one hy).mpr hxy⟩
  rw [fmod, if_pos hq, hz]
  push_cast
  ring

theorem fmod_exists_int (x y : ℝ) : ∃ k : ℤ, fmod x y = x + y * k :=
  ⟨-(if 0 ≤ x / y then ⌊x / y⌋ else ⌈x / y⌉), by rw [fmod]; push_cast; ring⟩

theorem atan2_mem_Ioc (y x : ℝ) : atan2 y x ∈ Set.Ioc (-Real.pi) Real.pi :=
  Complex.arg_mem_Ioc _

theorem fmod_shift_mem (a : ℝ) (ha : -Real.pi < a) :
    0 ≤ fmod (a + 2 * Real.pi) (2 * Real.pi) ∧
      fmod (a + 2 * Real.pi) (2 * Real.pi) < 2 * Real.pi := by
  have hpi := Real.pi_pos
  have hx : 0 ≤ a + 2 * Real.pi := by linarith
  have hy : 0 < 2 * Real.pi := by linarith
  exact ⟨fmod_nonneg _ _ hx hy, fmod_lt _ _ hx hy⟩

theorem Polygon.calculateBearing_mem (p q : LatLong) :
    0 ≤ Polygon.calculateBearing p q ∧ Polygon.calculateBearing p q < 2 * Real.pi := by
  simp only [Polygon.calculateBearing, PI_eq]
  exact fmod_shift_mem _ (atan2_mem_Ioc _ _).1

/-- C1. Zero-distance identity: for a polygon with at least 3 vertices,
`enlarge p 0` produces an output sequence pointwise equal to the input
vertex sequence, via the distance-zero fast path (the per-vertex loop
contributes nothing). -/
theorem enlarge_zero_distance_identity (p : Polygon) (h : 3 ≤ p.vertices.length) :
    (Polygon.enlarge p 0).enlargedVertices = p.vertices := by
  have hlt : ¬ p.vertices.length < 3 := by omega
  simp [Polygon.enlarge, hlt]

theorem enlarge_zero_distance_identity_witness :
    (Polygon.enlarge ⟨[⟨0, 0⟩, ⟨0, 1⟩, ⟨1, 0⟩], []⟩ 0).enlargedVertices =
      [⟨0, 0⟩, ⟨0, 1⟩, ⟨1, 0⟩] :=
  enlarge_zero_distance_identity ⟨[⟨0, 0⟩, ⟨0, 1⟩, ⟨1, 0⟩], []⟩ (by simp)

/-- C2 (evidence). Output-buffer accumulation: the source never clears
`enlargedVertices`, so a second `enlarge` with nonzero distance on the
same object appends 3 more vertices to a 3-vertex result, yielding 6
elements instead of 3. -/
theorem enlarge_twice_accumulates :
    ((Polygon.enlarge (Polygon.enlarge ⟨[⟨0, 0⟩, ⟨0, 1⟩, ⟨1, 0⟩], []⟩ 100)
        100).enlargedVertices).length = 6 := by
  norm_num [Polygon.enlarge]

/-- C3 (counterexample). Input mutation at distance zero: `enlarge P 0`
move-assigns the input vector into the output, leaving the input vertex
sequence empty rather than unchanged. -/
theorem enlarge_zero_moves_input_counterexample :
    (Polygon.enlarge ⟨[⟨0, 0⟩, ⟨0, 1⟩, ⟨1, 0⟩], []⟩ 0).vertices ≠
      [⟨0, 0⟩, ⟨0, 1⟩, ⟨1, 0⟩] := by
  norm_num [Polygon.enlarge]
  exact List.cons_ne_nil _ _

/-- C3 (amended). For every nonzero distance, `enlarge` leaves the input
vertex sequence unchanged (the output being freshly computed from it in
the functional model); only the distance-zero path transfers the input
storage. -/
theorem enlarge_preserves_vertices_of_ne_zero (p : Polygon) (d : ℝ) (hd : d ≠ 0) :
    (Polygon.enlarge p d).vertices = p.vertices := by
  by_cases h : p.vertices.length < 3
  · simp [Polygon.enlarge, h]
  · simp [Polygon.enlarge, h, hd]

theorem enlarge_preserves_vertices_of_ne_zero_witness :
    (Polygon.enlarge ⟨[⟨0, 0⟩, ⟨0, 1⟩, ⟨1, 0⟩], []⟩ 100).vertices =
      [⟨0, 0⟩, ⟨0, 1⟩, ⟨1, 0⟩] := by
  simpa using
    enlarge_preserves_vertices_of_ne_zero ⟨[⟨0, 0⟩, ⟨0, 1⟩, ⟨1, 0⟩], []⟩ 100
      (by norm_num)

/-- C7. Silent no-op for small inputs: with fewer than 3 vertices,
`enlarge` returns with the whole object state (input vertices and output
storage) unchanged, signalling failure only through the absent result. -/
theorem enlarge_small_input_noop (p : Polygon) (d : ℝ)
    (h : p.vertices.length < 3) : Polygon.enlarge p d = p := by
  simp [Polygon.enlarge, h]

theorem enlarge_small_input_noop_witness :
    Polygon.enlarge ⟨[⟨0, 0⟩, ⟨0, 1⟩], [⟨5, 5⟩]⟩ 7 = ⟨[⟨0, 0⟩, ⟨0, 1⟩], [⟨5, 5⟩]⟩ :=
  enlarge_small_input_noop ⟨[⟨0, 0⟩, ⟨0, 1⟩], [⟨5, 5⟩]⟩ 7 (by simp)

/-- C4. Cardinality preservation and index alignment: on a fresh object
with `n ≥ 3` vertices and nonzero distance, `enlarge` outputs exactly
`n` vertices, entry `i` being the projection of vertex `i` along the
bisector of its circular neighbors, in input order. -/
theorem enlarge_cardinality_index_aligned (p : Polygon) (d : ℝ)
    (hfresh : p.enlargedVertices = []) (hd : d ≠ 0)
    (hn : 3 ≤ p.vertices.length) :
    (Polygon.enlarge p d).enlargedVertices.length = p.vertices.length ∧
    ∀ i, i < p.vertices.length →
      (Polygon.enlarge p d).enlargedVertices.getD i default =
        Polygon.movePoint (p.vertices.getD i default)
          (Polygon.bisectorBearing
            (p.vertices.getD ((i + p.vertices.length - 1) % p.vertices.length) default)
            (p.vertices.getD i default)
            (p.vertices.getD ((i + 1) % p.vertices.length) default)) d := by
  have hlt : ¬ p.vertices.length < 3 := by omega
  constructor
  · simp [Polygon.enlarge, hlt, hd, hfresh]
  · intro i hi
    simp only [Polygon.enlarge, if_neg hlt, if_neg hd, hfresh, List.nil_append]
    rw [List.getD_eq_getElem _ _ (by simpa using hi)]
    simp [hi]

theorem enlarge_cardinality_index_aligned_witness :
    (Polygon.enlarge ⟨[⟨0, 0⟩, ⟨0, 1⟩, ⟨1, 0⟩], []⟩ 100).enlargedVertices.length = 3 := by
  have h :=
    (enlarge_cardinality_index_aligned ⟨[⟨0, 0⟩, ⟨0, 1⟩, ⟨1, 0⟩], []⟩ 100 rfl
      (by norm_num) (by simp)).1
  simpa using h

/-- C9. Bearing normalization: for every pair of points, the computed
initial bearing is a scalar angle lying in `[0, 2π)`. -/
theorem calculateBearing_normalized (p q : LatLong) :
    0 ≤ Polygon.calculateBearing p q ∧ Polygon.calculateBearing p q < 2 * Real.pi :=
  Polygon.calculateBearing_mem p q

/-- C5. Reflex correction: the turn `Δ` (difference of adjacent bearings,
normalized by adding `2π` if negative) lies in `[0, 2π)`; the computed
bisector bearing is the arithmetic mean of the two bearings when
`Δ ≤ π` and the mean rotated by exactly `π` modulo `2π` when `Δ > π`,
and it always lies in `[0, 2π)`. -/
theorem bisectorBearing_reflex_correction (p c q : LatLong) :
    0 ≤ Polygon.turnDelta p c q ∧ Polygon.turnDelta p c q < 2 * Real.pi ∧
    Polygon.bisectorBearing p c q =
      (if Real.pi < Polygon.turnDelta p c q
        then fmod (Polygon.naiveBisector p c q + Real.pi) (2 * Real.pi)
        else Polygon.naiveBisector p c q) ∧
    (∃ k : ℤ, fmod (Polygon.naiveBisector p c q + Real.pi) (2 * Real.pi) =
        Polygon.naiveBisector p c q + Real.pi + 2 * Real.pi * k) ∧
    0 ≤ Polygon.bisectorBearing p c q ∧
    Polygon.bisectorBearing p c q < 2 * Real.pi := by
  have hpi := Real.pi_pos
  obtain ⟨h1a, h1b⟩ := Polygon.calculateBearing_mem c p
  obtain ⟨h2a, h2b⟩ := Polygon.calculateBearing_mem c q
  simp only [Polygon.bisectorBearing, Polygon.naiveBisector, Polygon.turnDelta, PI_eq]
  set b1 := Polygon.calculateBearing c p with hb1
  set b2 := Polygon.calculateBearing c q with hb2
  set m := (b1 + b2) / 2 with hm
  have hm0 : 0 ≤ m := by positivity
  have hm2 : m < 2 * Real.pi := by rw [hm]; linarith
  by_cases hneg : b2 - b1 < 0
  · simp only [if_pos hneg]
    refine ⟨by linarith, by linarith, ?_, fmod_exists_int _ _, ?_, ?_⟩
    · by_cases hrefl : Real.pi < b2 - b1 + 2 * Real.pi
      · simp [hrefl]
      · simp [hrefl, fmod_eq_self m _ hm0 hm2]
    · by_cases hrefl : Real.pi < b2 - b1 + 2 * Real.pi
      · simp only [if_pos hrefl]
        exact fmod_nonneg _ _ (by linarith) (by linarith)
      · simp only [if_neg hrefl]
        exact fmod_nonneg _ _ hm0 (by linarith)
    · by_cases hrefl : Real.pi < b2 - b1 + 2 * Real.pi
      · simp only [if_pos hrefl]
        exact fmod_lt _ _ (by linarith) (by linarith)
      · simp only [if_neg hrefl]
        exact fmod_lt _ _ hm0 (by linarith)
  · simp only [if_neg hneg]
    refine ⟨by linarith, by linarith, ?_, fmod_exists_int _ _, ?_, ?_⟩
    · by_cases hrefl : Real.pi < b2 - b1
      · simp [hrefl]
      · simp [hrefl, fmod_eq_self m _ hm0 hm2]
    · by_cases hrefl : Real.pi < b2 - b1
      · simp only [if_pos hrefl]
        exact fmod_nonneg _ _ (by linarith) (by linarith)
      · simp only [if_neg hrefl]
        exact fmod_nonneg _ _ hm0 (by linarith)
    · by_cases hrefl : Real.pi < b2 - b1
      · simp only [if_pos hrefl]
        exact fmod_lt _ _ (by linarith) (by linarith)
      · simp only [if_neg hrefl]
        exact fmod_lt _ _ hm0 (by linarith)

/-- C6 (evidence). The bisector classifier of the source returns the
planar pair of cosine/sine components of the scalar bisector bearing
wrapped in a `LatLong`, rather than the scalar bearing expected by the
`double bearing` parameter of `movePoint`, shown here at a concrete
vertex triple. -/
theorem calculateAngleBisector_returns_vector :
    Polygon.calculateAngleBisector ⟨0, 0⟩ ⟨0, 1⟩ ⟨1, 1⟩ =
      ⟨Real.cos (Polygon.bisectorBearing ⟨0, 0⟩ ⟨0, 1⟩ ⟨1, 1⟩),
       Real.sin (Polygon.bisectorBearing ⟨0, 0⟩ ⟨0, 1⟩ ⟨1, 1⟩)⟩ := rfl

theorem rad_deg_roundtrip (x : ℝ) : x * RAD_TO_DEG * DEG_TO_RAD = x := by
  simp only [RAD_TO_DEG, DEG_TO_RAD, PI_eq]
  field_simp

theorem deg_rad_roundtrip (x : ℝ) : x * DEG_TO_RAD * RAD_TO_DEG = x := by
  simp only [RAD_TO_DEG, DEG_TO_RAD, PI_eq]
  field_simp

theorem lon_roundtrip (L x : ℝ) :
    ((L * DEG_TO_RAD + x) * RAD_TO_DEG - L) * DEG_TO_RAD = x := by
  simp only [RAD_TO_DEG, DEG_TO_RAD, PI_eq]
  field_simp
  ring

theorem atan2_zero_of_nonneg (x : ℝ) (hx : 0 ≤ x) : atan2 0 x = 0 := by
  rw [atan2]
  have h : (⟨x, 0⟩ : ℂ) = (x : ℂ) := Complex.ext rfl rfl
  rw [h]
  exact Complex.arg_ofReal_of_nonneg hx

theorem atan2_sin_cos (t : ℝ) (h1 : -Real.pi < t) (h2 : t ≤ Real.pi) :
    atan2 (Real.sin t) (Real.cos t) = t := by
  rw [atan2, Complex.mk_eq_add_mul_I, Complex.ofReal_cos, Complex.ofReal_sin]
  exact Complex.arg_cos_add_sin_mul_I ⟨h1, h2⟩

theorem cos_atan2_scaled (c A B : ℝ) (hc : 0 ≤ c) :
    c * (Real.sqrt (A ^ 2 + B ^ 2) * Real.cos (atan2 (c * B) (c * A))) = c * A := by
  rcases eq_or_lt_of_le hc with hc0 | hcpos
  · rw [← hc0]
    ring
  by_cases hz : A = 0 ∧ B = 0
  · obtain ⟨ha, hb⟩ := hz
    simp [ha, hb]
  · have hAB : 0 < A ^ 2 + B ^ 2 := by
      rcases not_and_or.mp hz with h | h
      · have h2 : (0 : ℝ) < A ^ 2 :=
          lt_of_le_of_ne (sq_nonneg A) (Ne.symm (pow_ne_zero 2 h))
        nlinarith [sq_nonneg B]
      · have h2 : (0 : ℝ) < B ^ 2 :=
          lt_of_le_of_ne (sq_nonneg B) (Ne.symm (pow_ne_zero 2 h))
        nlinarith [sq_nonneg A]
    have hzne : (⟨c * A, c * B⟩ : ℂ) ≠ 0 := by
      intro hcontra
      rw [Complex.ext_iff] at hcontra
      obtain ⟨hre, him⟩ := hcontra
      have hA0 : A = 0 := by
        have : c * A = 0 := hre
        rcases mul_eq_zero.mp this with h | h
        · exact absurd h (ne_of_gt hcpos)
        · exact h
      have hB0 : B = 0 := by
        have : c * B = 0 := him
        rcases mul_eq_zero.mp this with h | h
        · exact absurd h (ne_of_gt hcpos)
        · exact h
      exact hz ⟨hA0, hB0⟩
    have habs : Complex.abs ⟨c * A, c * B⟩ = c * Real.sqrt (A ^ 2 + B ^ 2) := by
      rw [Complex.abs_apply, Complex.normSq_mk,
        show c * A * (c * A) + c * B * (c * B) = c ^ 2 * (A ^ 2 + B ^ 2) by ring,
        Real.sqrt_mul (sq_nonneg c), Real.sqrt_sq hc]
    have hcos := Complex.cos_arg hzne
    have hs : 0 < Real.sqrt (A ^ 2 + B ^ 2) := Real.sqrt_pos.mpr hAB
    have hre : (⟨c * A, c * B⟩ : ℂ).re = c * A := rfl
    rw [atan2, hcos, habs, hre]
    field_simp
    ring

/-- Central-angle identity for the destination-point formula: the
spherical law-of-cosines expression between a start point at latitude
`φ1` and the point produced by `movePoint`s formula at angular distance
`δ` and bearing `θ` collapses to `cos δ`. -/
theorem destination_central_angle (φ1 θ δ : ℝ)
    (h1 : -(Real.pi / 2) ≤ φ1) (h2 : φ1 ≤ Real.pi / 2) :
    Real.sin φ1 *
        Real.sin (Real.arcsin
          (Real.sin φ1 * Real.cos δ + Real.cos φ1 * Real.sin δ * Real.cos θ)) +
      Real.cos φ1 *
        Real.cos (Real.arcsin
          (Real.sin φ1 * Real.cos δ + Real.cos φ1 * Real.sin δ * Real.cos θ)) *
        Real.cos (atan2 (Real.sin θ * Real.sin δ * Real.cos φ1)
          (Real.cos δ - Real.sin φ1 *
            Real.sin (Real.arcsin
              (Real.sin φ1 * Real.cos δ + Real.cos φ1 * Real.sin δ * Real.cos θ)))) =
      Real.cos δ := by
  have hc1 : 0 ≤ Real.cos φ1 := Real.cos_nonneg_of_mem_Icc ⟨h1, h2⟩
  have hp1 : Real.sin φ1 ^ 2 + Real.cos φ1 ^ 2 = 1 := Real.sin_sq_add_cos_sq φ1
  have hpδ : Real.sin δ ^ 2 + Real.cos δ ^ 2 = 1 := Real.sin_sq_add_cos_sq δ
  have hpθ : Real.sin θ ^ 2 + Real.cos θ ^ 2 = 1 := Real.sin_sq_add_cos_sq θ
  set s1 := Real.sin φ1 with hs1
  set c1 := Real.cos φ1 with hc1def
  set S2 := s1 * Real.cos δ + c1 * Real.sin δ * Real.cos θ with hS2def
  have hid : 1 - S2 ^ 2 =
      (s1 * Real.sin δ * Real.cos θ - c1 * Real.cos δ) ^ 2 +
        Real.sin δ ^ 2 * Real.sin θ ^ 2 := by
    rw [hS2def]
    linear_combination (-(Real.cos δ ^ 2 + Real.sin δ ^ 2 * Real.cos θ ^ 2)) * hp1 -
      hpδ - Real.sin δ ^ 2 * hpθ
  have hS2sq : S2 ^ 2 ≤ 1 := by
    nlinarith [sq_nonneg (s1 * Real.sin δ * Real.cos θ - c1 * Real.cos δ),
      sq_nonneg (Real.sin δ * Real.sin θ), hid]
  have hS2a : -1 ≤ S2 := by nlinarith
  have hS2b : S2 ≤ 1 := by nlinarith
  rw [Real.sin_arcsin hS2a hS2b, Real.cos_arcsin]
  set Qx := c1 * Real.cos δ - s1 * Real.sin δ * Real.cos θ with hQxdef
  set Qy := Real.sin δ * Real.sin θ with hQydef
  have hx : Real.cos δ - s1 * S2 = c1 * Qx := by
    rw [hS2def, hQxdef]
    linear_combination (-Real.cos δ) * hp1
  have hy : Real.sin θ * Real.sin δ * c1 = c1 * Qy := by
    rw [hQydef]
    ring
  have hQ : Qx ^ 2 + Qy ^ 2 = 1 - S2 ^ 2 := by
    rw [hQxdef, hQydef, hS2def]
    linear_combination (Real.cos δ ^ 2 + Real.sin δ ^ 2 * Real.cos θ ^ 2) * hp1 +
      hpδ + Real.sin δ ^ 2 * hpθ
  rw [hy, hx, ← hQ]
  have hkey := cos_atan2_scaled c1 Qx Qy hc1
  linear_combination hkey - hx

/-- Helper: the destination-point formula at distance zero returns the
input point exactly, for latitudes within `[-90, 90]` degrees. -/
theorem movePoint_zero_eq (p : LatLong) (θ : ℝ)
    (h1 : -90 ≤ p.latitude) (h2 : p.latitude ≤ 90) :
    Polygon.movePoint p θ 0 = p := by
  obtain ⟨la, lo⟩ := p
  simp only at h1 h2
  have hpi := Real.pi_pos
  have hφa : -(Real.pi / 2) ≤ la * DEG_TO_RAD := by
    simp only [DEG_TO_RAD, PI_eq]
    nlinarith
  have hφb : la * DEG_TO_RAD ≤ Real.pi / 2 := by
    simp only [DEG_TO_RAD, PI_eq]
    nlinarith
  have hsin : Real.sin (la * DEG_TO_RAD) * Real.cos (0 / EARTH_RADIUS) +
      Real.cos (la * DEG_TO_RAD) * Real.sin (0 / EARTH_RADIUS) * Real.cos θ =
      Real.sin (la * DEG_TO_RAD) := by
    norm_num
  simp only [Polygon.movePoint, hsin, Real.arcsin_sin hφa hφb, LatLong.mk.injEq]
  constructor
  · exact deg_rad_roundtrip la
  · have hy0 : Real.sin θ * Real.sin (0 / EARTH_RADIUS) * Real.cos (la * DEG_TO_RAD) = 0 := by
      norm_num
    have hx0 : 0 ≤ Real.cos (0 / EARTH_RADIUS) -
        Real.sin (la * DEG_TO_RAD) * Real.sin (la * DEG_TO_RAD) := by
      norm_num
      nlinarith [Real.sin_sq_add_cos_sq (la * DEG_TO_RAD), sq_nonneg (Real.cos (la * DEG_TO_RAD))]
    rw [hy0, atan2_zero_of_nonneg _ hx0, add_zero]
    exact deg_rad_roundtrip lo

/-- C8. Exact displacement: for any start point with latitude in
`[-90, 90]` degrees, any bearing, and any distance `d` in
`[0, π·6371000]`, the great-circle distance from the point to its
projection equals `d` exactly; the displacement is therefore strictly
increasing in `d`, and projecting by distance `0` returns the point
itself. -/
theorem movePoint_exact_displacement (p : LatLong) (θ : ℝ)
    (h1 : -90 ≤ p.latitude) (h2 : p.latitude ≤ 90) :
    (∀ d, 0 ≤ d → d ≤ Real.pi * 6371000 →
        sphericalDistance p (Polygon.movePoint p θ d) = d) ∧
    (∀ d1 d2, 0 ≤ d1 → d2 ≤ Real.pi * 6371000 → d1 < d2 →
        sphericalDistance p (Polygon.movePoint p θ d1) <
          sphericalDistance p (Polygon.movePoint p θ d2)) ∧
    Polygon.movePoint p θ 0 = p := by
  have hpi := Real.pi_pos
  have hRpos : (0 : ℝ) < EARTH_RADIUS := by norm_num [EARTH_RADIUS]
  have hφa : -(Real.pi / 2) ≤ p.latitude * DEG_TO_RAD := by
    simp only [DEG_TO_RAD, PI_eq]
    nlinarith
  have hφb : p.latitude * DEG_TO_RAD ≤ Real.pi / 2 := by
    simp only [DEG_TO_RAD, PI_eq]
    nlinarith
  have hmain : ∀ d, 0 ≤ d → d ≤ Real.pi * 6371000 →
      sphericalDistance p (Polygon.movePoint p θ d) = d := by
    intro d hd0 hdpi
    have hδ0 : 0 ≤ d / EARTH_RADIUS := div_nonneg hd0 hRpos.le
    have hδπ : d / EARTH_RADIUS ≤ Real.pi := by
      rw [div_le_iff₀ hRpos]
      calc d ≤ Real.pi * 6371000 := hdpi
        _ = Real.pi * EARTH_RADIUS := by norm_num [EARTH_RADIUS]
    simp only [sphericalDistance, Polygon.movePoint]
    rw [rad_deg_roundtrip, lon_roundtrip,
      destination_central_angle (p.latitude * DEG_TO_RAD) θ (d / EARTH_RADIUS) hφa hφb,
      Real.arccos_cos hδ0 hδπ]
    field_simp
  refine ⟨hmain, ?_, movePoint_zero_eq p θ h1 h2⟩
  intro d1 d2 hd1 hd2 hlt
  rw [hmain d1 hd1 (by linarith), hmain d2 (by linarith) hd2]
  exact hlt

theorem movePoint_exact_displacement_witness :
    sphericalDistance ⟨0, 0⟩ (Polygon.movePoint ⟨0, 0⟩ 0 6371000) = 6371000 :=
  (movePoint_exact_displacement ⟨0, 0⟩ 0 (by norm_num) (by norm_num)).1 6371000
    (by norm_num) (by nlinarith [Real.pi_gt_three])

/-- C10. Longitude escape: there is a valid input (latitude in
`[-90, 90]`, longitude in `[-180, 180]`) with a bearing and positive
distance for which the longitude of the projected point exceeds `180`
degrees, since the computed longitude is converted to degrees without
wrap-around. -/
theorem movePoint_longitude_out_of_range :
    ∃ (p : LatLong) (θ d : ℝ),
      -90 ≤ p.latitude ∧ p.latitude ≤ 90 ∧
      -180 ≤ p.longitude ∧ p.longitude ≤ 180 ∧ 0 < d ∧
      180 < (Polygon.movePoint p θ d).longitude := by
  have hpi := Real.pi_pos
  have hpi3 := Real.pi_gt_three
  refine ⟨⟨0, 180⟩, Real.pi / 2, EARTH_RADIUS, by norm_num, by norm_num, by norm_num,
    by norm_num, by norm_num [EARTH_RADIUS], ?_⟩
  have hdd : EARTH_RADIUS / EARTH_RADIUS = (1 : ℝ) := by
    rw [div_self]
    norm_num [EARTH_RADIUS]
  have key : (Polygon.movePoint ⟨0, 180⟩ (Real.pi / 2) EARTH_RADIUS).longitude =
      (Real.pi + 1) * RAD_TO_DEG := by
    simp only [Polygon.movePoint, hdd]
    norm_num [Real.sin_pi_div_two, Real.cos_pi_div_two]
    rw [atan2_sin_cos 1 (by linarith) (by linarith),
      show (180 : ℝ) * DEG_TO_RAD = Real.pi by
        simp only [DEG_TO_RAD, PI_eq]; field_simp]
    exact Or.inl rfl
  rw [key]
  have hexp : (Real.pi + 1) * RAD_TO_DEG = 180 + 180 / Real.pi := by
    simp only [RAD_TO_DEG, PI_eq]
    field_simp
    ring
  rw [hexp]
  have : 0 < 180 / Real.pi := by positivity
  linarith

end ExpandingPolygon
